import Mathlib

/-!
Verification of the regression engine of `src/lib/regression-utils.ts`.

Embedding conventions:
 - JavaScript numbers are modelled as exact rationals (`ℚ`).  Division is
   Lean's total field division; wherever a claim hinges on a division by
   zero (which in JavaScript produces `NaN`/`Infinity`), the theorem makes
   the zero denominator explicit instead.
 - The transcendental functions of the JavaScript `Math` library
   (`exp`, `log`, `sqrt`, fractional `pow`, `PI`) are opaque external
   primitives; they are abstracted as a parameter structure `JsMath`
   threaded through every definition that calls them.  All theorems hold
   for every interpretation of these primitives.
 - Arrays are lists; the in-place loops of the source become folds or
   fuel-indexed structural recursion (the fuel is the loop bound of the
   source, so every definition is computable and kernel-reducible).
 - Matrices in the Gaussian elimination solver are total functions
   `Fin n → Fin n → ℚ`, rows first; the augmented column is carried as a
   separate vector, and every row operation of the source is applied to
   both parts exactly as the source applies it to the augmented matrix.
 - The `string` field of the result record (a `toFixed`-formatted display
   equation) is presentational and is omitted from the embedding.
-/

set_option linter.unusedVariables false

/-- One (x, y) sample, `interface DataPoint` of the source. -/
structure DataPoint where
  x : ℚ
  y : ℚ
deriving DecidableEq

/-- The `Math` primitives used by the source, kept abstract. -/
structure JsMath where
  exp : ℚ → ℚ
  log : ℚ → ℚ
  sqrt : ℚ → ℚ
  powf : ℚ → ℚ → ℚ
  pi : ℚ

/-- `type RegressionType` of the source. -/
inductive RegressionType where
  | linear
  | polynomial
  | exponential
  | logarithmic
  | power
  | logistic
deriving DecidableEq

/-- `interface RegressionMetrics` of the source. -/
structure RegressionMetrics where
  mae : ℚ
  mse : ℚ
  rmse : ℚ
  mape : ℚ
  adjustedR2 : ℚ
  aic : ℚ
  bic : ℚ
  standardError : ℚ
  fStatistic : ℚ
  pValue : ℚ

/-- `interface RegressionResult` of the source (the presentational
`string` field is omitted). -/
structure RegressionResult where
  equation : List ℚ
  r2 : ℚ
  points : List DataPoint
  type : RegressionType
  metrics : RegressionMetrics
  coefficients : List ℚ
  intercept : Option ℚ := none
  slope : Option ℚ := none
  predict : ℚ → ℚ

abbrev Vec (n : ℕ) := Fin n → ℚ

abbrev Mat (n : ℕ) := Fin n → Vec n

/-- The singularity threshold `1e-10` of `gaussianElimination`. -/
def pivotTol : ℚ := 1e-10

/-- The partial-pivot search of `gaussianElimination`: starting from
`maxRow = i`, scan rows `k = i+1 .. n-1` and keep `k` whenever
`|col k| > |col maxRow]` (strict, so the first maximal row wins). -/
def findMaxRow {n : ℕ} (col : Vec n) (i : Fin n) : Fin n :=
  ((List.finRange n).drop (i.val + 1)).foldl
    (fun cur k => if |col k| > |col cur| then k else cur) i

/-- Row swap `[augmented[i], augmented[maxRow]] = [augmented[maxRow], augmented[i]]`. -/
def swapRows {n : ℕ} {α : Type} (A : Fin n → α) (i j : Fin n) : Fin n → α :=
  fun r => A (Equiv.swap i j r)

/-- The inner elimination loop on the matrix part: for every row `k > i`
subtract `factor * row i` from row `k`, columns `j ≥ i` only
(`factor = A k i / A i i`, read before the row is updated). -/
def eliminateBelow {n : ℕ} (A : Mat n) (i : Fin n) : Mat n :=
  fun k j => if i < k ∧ i ≤ j then A k j - A k i / A i i * A i j else A k j

/-- The inner elimination loop on the augmented right-hand-side column. -/
def eliminateRHS {n : ℕ} (A : Mat n) (b : Vec n) (i : Fin n) : Vec n :=
  fun k => if i < k then b k - A k i / A i i * b i else b k

/-- Forward elimination of `gaussianElimination`: the loop
`for (i = 0; i < n; i++)`, written with the loop count as structural
fuel.  Each step selects the partial pivot, swaps it into place, reports
singularity (`none`) when its magnitude is below `1e-10`, and otherwise
eliminates the column below it. -/
def geForwardAux {n : ℕ} : ℕ → ℕ → Mat n → Vec n → Option (Mat n × Vec n)
  | 0, _, A, b => some (A, b)
  | fuel + 1, i, A, b =>
    if h : i < n then
      let iv : Fin n := ⟨i, h⟩
      let m := findMaxRow (fun r => A r iv) iv
      let A1 := swapRows A iv m
      let b1 := swapRows b iv m
      if |A1 iv iv| < pivotTol then none
      else geForwardAux fuel (i + 1) (eliminateBelow A1 iv) (eliminateRHS A1 b1 iv)
    else some (A, b)

/-- One step of the back-substitution loop of `gaussianElimination`:
`x[i] = (augmented[i][n] - sum_{j>i} augmented[i][j]*x[j]) / augmented[i][i]`. -/
def backSubStep {n : ℕ} (U : Mat n) (c : Vec n) (x : Vec n) (i : Fin n) : Vec n :=
  Function.update x i
    ((c i - (((List.finRange n).drop (i.val + 1)).map (fun j => U i j * x j)).sum) / U i i)

/-- Back substitution of `gaussianElimination`: the loop
`for (i = n - 1; i >= 0; i--)` over the array initialised with
`new Array(n).fill(0)`. -/
def backSubstitute {n : ℕ} (U : Mat n) (c : Vec n) : Vec n :=
  ((List.finRange n).reverse).foldl (backSubStep U c) (fun _ => 0)

/-- `gaussianElimination(A, b)` of the source: forward elimination with
partial pivoting followed by back substitution; `none` models the
`return null` on a sub-tolerance pivot. -/
def gaussianElimination {n : ℕ} (A : Mat n) (b : Vec n) : Option (Vec n) :=
  (geForwardAux n 0 A b).map (fun Uc => backSubstitute Uc.1 Uc.2)

/-- `solveNormalEquations(X, y)` of the source: form `XtX` and `Xty` by
the triple summation loops and hand them to `gaussianElimination`. -/
def solveNormalEquations {p : ℕ} (X : List (Fin p → ℚ)) (y : List ℚ) :
    Option (Fin p → ℚ) :=
  let XtX : Mat p := fun i j => X.foldl (fun sum row => sum + row i * row j) 0
  let Xty : Vec p := fun i => (X.zip y).foldl (fun sum ry => sum + ry.1 i * ry.2) 0
  gaussianElimination XtX Xty

/-- Error-function approximation `erf` of the source (Abramowitz–Stegun
coefficients). -/
def erf (M : JsMath) (x : ℚ) : ℚ :=
  let a1 : ℚ := 0.254829592
  let a2 : ℚ := -0.284496736
  let a3 : ℚ := 1.421413741
  let a4 : ℚ := -1.453152027
  let a5 : ℚ := 1.061405429
  let p : ℚ := 0.3275911
  let sign : ℚ := if x ≥ 0 then 1 else -1
  let x' := |x|
  let t := 1 / (1 + p * x')
  let y := 1 - (((((a5 * t + a4) * t) + a3) * t + a2) * t + a1) * t * M.exp (-x' * x')
  sign * y

/-- `normalCDF` of the source. -/
def normalCDF (M : JsMath) (x : ℚ) : ℚ :=
  0.5 * (1 + erf M (x / M.sqrt 2))

/-- `fDistributionCDF` of the source (coarse closed-form approximation). -/
def fDistributionCDF (M : JsMath) (f df1 df2 : ℚ) : ℚ :=
  if f ≤ 0 then 0
  else if df1 = 1 ∧ df2 > 0 then
    let t := M.sqrt f
    2 * (1 - normalCDF M t)
  else 1 - M.exp (-f / 2)

/-- `calculateMetrics(data, predictions, numParams)` of the source. -/
def calculateMetrics (M : JsMath) (data : List DataPoint) (predictions : List ℚ)
    (numParams : ℕ) : RegressionMetrics :=
  let n : ℚ := data.length
  let errors := List.zipWith (fun point yhat => point.y - yhat) data predictions
  let absoluteErrors := errors.map (fun e => |e|)
  let squaredErrors := errors.map (fun e => e * e)
  let percentageErrors := List.zipWith (fun point e => |e / point.y * 100|) data errors
  let mae := absoluteErrors.foldl (fun sum e => sum + e) 0 / n
  let mse := squaredErrors.foldl (fun sum e => sum + e) 0 / n
  let rmse := M.sqrt mse
  let mape := percentageErrors.foldl (fun sum e => sum + e) 0 / n
  let meanY := data.foldl (fun sum point => sum + point.y) 0 / n
  let ssRes := squaredErrors.foldl (fun sum e => sum + e) 0
  let ssTot := data.foldl (fun sum point => sum + (point.y - meanY) ^ 2) 0
  let r2 := 1 - ssRes / ssTot
  let adjustedR2 := 1 - (1 - r2) * (n - 1) / (n - numParams - 1)
  let standardError := M.sqrt (ssRes / (n - numParams))
  let ssReg := ssTot - ssRes
  let fStatistic := ssReg / ((numParams : ℚ) - 1) / (ssRes / (n - numParams))
  let pValue := 1 - fDistributionCDF M fStatistic ((numParams : ℚ) - 1) (n - numParams)
  let logLikelihood := -(0.5) * n * M.log (2 * M.pi * mse) - 0.5 * n
  let aic := 2 * numParams - 2 * logLikelihood
  let bic := M.log n * numParams - 2 * logLikelihood
  { mae := mae, mse := mse, rmse := rmse, mape := mape, adjustedR2 := adjustedR2,
    aic := aic, bic := bic, standardError := standardError,
    fStatistic := fStatistic, pValue := pValue }

/-- `linearRegression(data)` of the source. -/
def linearRegression (M : JsMath) (data : List DataPoint) : Option RegressionResult :=
  if data.length < 2 then none
  else
    let n : ℚ := data.length
    let sumX := data.foldl (fun sum point => sum + point.x) 0
    let sumY := data.foldl (fun sum point => sum + point.y) 0
    let sumXY := data.foldl (fun sum point => sum + point.x * point.y) 0
    let sumX2 := data.foldl (fun sum point => sum + point.x * point.x) 0
    let sumY2 := data.foldl (fun sum point => sum + point.y * point.y) 0
    let slope := (n * sumXY - sumX * sumY) / (n * sumX2 - sumX * sumX)
    let intercept := (sumY - slope * sumX) / n
    let predictions := data.map (fun point => intercept + slope * point.x)
    let meanY := sumY / n
    let ssRes := (List.zipWith (fun point yhat => (point.y - yhat) ^ 2) data predictions).foldl
      (fun sum e => sum + e) 0
    let ssTot := data.foldl (fun sum point => sum + (point.y - meanY) ^ 2) 0
    let r2 := 1 - ssRes / ssTot
    let metrics := calculateMetrics M data predictions 2
    some { equation := [intercept, slope], r2 := r2,
           points := List.zipWith (fun point yhat => DataPoint.mk point.x yhat) data predictions,
           type := RegressionType.linear, metrics := metrics,
           coefficients := [intercept, slope],
           intercept := some intercept, slope := some slope,
           predict := fun x => intercept + slope * x }

/-- The design-matrix rows `[1, x, x^2, ..., x^degree]` built by
`polynomialRegression`. -/
def designMatrix (degree : ℕ) (data : List DataPoint) : List (Fin (degree + 1) → ℚ) :=
  data.map (fun point => fun j => point.x ^ (j : ℕ))

/-- Polynomial evaluation as performed by `polynomialRegression`:
`pred = coefficients[0]; for (j = 1..degree) pred += coefficients[j] * x^j`,
written as the equivalent indexed sum. -/
def polyEval (coeffs : List ℚ) (x : ℚ) : ℚ :=
  (coeffs.enum.map (fun jc => jc.2 * x ^ jc.1)).sum

/-- `polynomialRegression(data, degree)` of the source. -/
def polynomialRegression (M : JsMath) (data : List DataPoint) (degree : ℕ) :
    Option RegressionResult :=
  if data.length < degree + 1 then none
  else
    match solveNormalEquations (designMatrix degree data) (data.map (fun point => point.y)) with
    | none => none
    | some beta =>
      let coefficients := List.ofFn beta
      let predictions := data.map (fun point => polyEval coefficients point.x)
      let n : ℚ := data.length
      let meanY := data.foldl (fun sum point => sum + point.y) 0 / n
      let ssRes := (List.zipWith (fun point yhat => (point.y - yhat) ^ 2) data predictions).foldl
        (fun sum e => sum + e) 0
      let ssTot := data.foldl (fun sum point => sum + (point.y - meanY) ^ 2) 0
      let r2 := 1 - ssRes / ssTot
      let metrics := calculateMetrics M data predictions (degree + 1)
      some { equation := coefficients, r2 := r2,
             points := List.zipWith (fun point yhat => DataPoint.mk point.x yhat) data predictions,
             type := RegressionType.polynomial, metrics := metrics,
             coefficients := coefficients,
             predict := fun x => polyEval coefficients x }

/-- `exponentialRegression(data)` of the source. -/
def exponentialRegression (M : JsMath) (data : List DataPoint) : Option RegressionResult :=
  if data.length < 2 then none
  else
    let validData := data.filter (fun point => 0 < point.y)
    if validData.length < 2 then none
    else
      let transformedData := validData.map (fun point => DataPoint.mk point.x (M.log point.y))
      match linearRegression M transformedData with
      | none => none
      | some linearResult =>
        let a := M.exp (linearResult.intercept.getD 0)
        let b := linearResult.slope.getD 0
        let predictions := validData.map (fun point => a * M.exp (b * point.x))
        let n : ℚ := validData.length
        let meanY := validData.foldl (fun sum point => sum + point.y) 0 / n
        let ssRes := (List.zipWith (fun point yhat => (point.y - yhat) ^ 2) validData
          predictions).foldl (fun sum e => sum + e) 0
        let ssTot := validData.foldl (fun sum point => sum + (point.y - meanY) ^ 2) 0
        let r2 := 1 - ssRes / ssTot
        let metrics := calculateMetrics M validData predictions 2
        some { equation := [a, b], r2 := r2,
               points := List.zipWith (fun point yhat => DataPoint.mk point.x yhat) validData
                 predictions,
               type := RegressionType.exponential, metrics := metrics,
               coefficients := [a, b],
               predict := fun x => a * M.exp (b * x) }

/-- `logarithmicRegression(data)` of the source. -/
def logarithmicRegression (M : JsMath) (data : List DataPoint) : Option RegressionResult :=
  if data.length < 2 then none
  else
    let validData := data.filter (fun point => 0 < point.x)
    if validData.length < 2 then none
    else
      let transformedData := validData.map (fun point => DataPoint.mk (M.log point.x) point.y)
      match linearRegression M transformedData with
      | none => none
      | some linearResult =>
        let a := linearResult.intercept.getD 0
        let b := linearResult.slope.getD 0
        let predictions := validData.map (fun point => a + b * M.log point.x)
        let n : ℚ := validData.length
        let meanY := validData.foldl (fun sum point => sum + point.y) 0 / n
        let ssRes := (List.zipWith (fun point yhat => (point.y - yhat) ^ 2) validData
          predictions).foldl (fun sum e => sum + e) 0
        let ssTot := validData.foldl (fun sum point => sum + (point.y - meanY) ^ 2) 0
        let r2 := 1 - ssRes / ssTot
        let metrics := calculateMetrics M validData predictions 2
        some { equation := [a, b], r2 := r2,
               points := List.zipWith (fun point yhat => DataPoint.mk point.x yhat) validData
                 predictions,
               type := RegressionType.logarithmic, metrics := metrics,
               coefficients := [a, b],
               predict := fun x => a + b * M.log x }

/-- `powerRegression(data)` of the source. -/
def powerRegression (M : JsMath) (data : List DataPoint) : Option RegressionResult :=
  if data.length < 2 then none
  else
    let validData := data.filter (fun point => 0 < point.x ∧ 0 < point.y)
    if validData.length < 2 then none
    else
      let transformedData := validData.map
        (fun point => DataPoint.mk (M.log point.x) (M.log point.y))
      match linearRegression M transformedData with
      | none => none
      | some linearResult =>
        let a := M.exp (linearResult.intercept.getD 0)
        let b := linearResult.slope.getD 0
        let predictions := validData.map (fun point => a * M.powf point.x b)
        let n : ℚ := validData.length
        let meanY := validData.foldl (fun sum point => sum + point.y) 0 / n
        let ssRes := (List.zipWith (fun point yhat => (point.y - yhat) ^ 2) validData
          predictions).foldl (fun sum e => sum + e) 0
        let ssTot := validData.foldl (fun sum point => sum + (point.y - meanY) ^ 2) 0
        let r2 := 1 - ssRes / ssTot
        let metrics := calculateMetrics M validData predictions 2
        some { equation := [a, b], r2 := r2,
               points := List.zipWith (fun point yhat => DataPoint.mk point.x yhat) validData
                 predictions,
               type := RegressionType.power, metrics := metrics,
               coefficients := [a, b],
               predict := fun x => a * M.powf x b }

/-- One gradient-descent update of `logisticRegression`
(`learningRate = 0.01`, batch gradients accumulated over `validData`). -/
def logisticStep (M : JsMath) (validData : List DataPoint) (beta : ℚ × ℚ) : ℚ × ℚ :=
  let grads := validData.foldl
    (fun g point =>
      let z := beta.1 + beta.2 * point.x
      let p := 1 / (1 + M.exp (-z))
      let err := p - point.y
      (g.1 + err, g.2 + err * point.x))
    ((0 : ℚ), (0 : ℚ))
  (beta.1 - 0.01 * grads.1 / validData.length,
   beta.2 - 0.01 * grads.2 / validData.length)

/-- The gradient-descent loop of `logisticRegression`: at most `fuel`
iterations (the source calls it with `maxIterations = 1000`); the loop
breaks, keeping the previous parameters, when both parameter deltas fall
below `tolerance = 1e-6`. -/
def logisticLoop (M : JsMath) (validData : List DataPoint) : ℕ → ℚ × ℚ → ℚ × ℚ
  | 0, beta => beta
  | fuel + 1, beta =>
    let newBeta := logisticStep M validData beta
    if |newBeta.1 - beta.1| < 1e-6 ∧ |newBeta.2 - beta.2| < 1e-6 then beta
    else logisticLoop M validData fuel newBeta

/-- `logisticRegression(data)` of the source. -/
def logisticRegression (M : JsMath) (data : List DataPoint) : Option RegressionResult :=
  if data.length < 2 then none
  else
    let validData := data.filter (fun point => 0 ≤ point.y ∧ point.y ≤ 1)
    if validData.length < 2 then none
    else
      let beta := logisticLoop M validData 1000 (0, 0)
      let predictions := validData.map (fun point =>
        let z := beta.1 + beta.2 * point.x
        1 / (1 + M.exp (-z)))
      let n : ℚ := validData.length
      let meanY := validData.foldl (fun sum point => sum + point.y) 0 / n
      let ssRes := (List.zipWith (fun point yhat => (point.y - yhat) ^ 2) validData
        predictions).foldl (fun sum e => sum + e) 0
      let ssTot := validData.foldl (fun sum point => sum + (point.y - meanY) ^ 2) 0
      let r2 := 1 - ssRes / ssTot
      let metrics := calculateMetrics M validData predictions 2
      some { equation := [beta.1, beta.2], r2 := r2,
             points := List.zipWith (fun point yhat => DataPoint.mk point.x yhat) validData
               predictions,
             type := RegressionType.logistic, metrics := metrics,
             coefficients := [beta.1, beta.2],
             predict := fun x =>
               let z := beta.1 + beta.2 * x
               1 / (1 + M.exp (-z)) }

/-- `performRegression(data, type, order)` of the source (`order`
defaults to 2; the `try/catch` cannot fire because the type switch is
total). -/
def performRegression (M : JsMath) (data : List DataPoint) (type : RegressionType)
    (order : ℕ := 2) : Option RegressionResult :=
  if data.length < 2 then none
  else
    match type with
    | RegressionType.linear => linearRegression M data
    | RegressionType.polynomial => polynomialRegression M data order
    | RegressionType.exponential => exponentialRegression M data
    | RegressionType.logarithmic => logarithmicRegression M data
    | RegressionType.power => powerRegression M data
    | RegressionType.logistic => logisticRegression M data

/-- `getAvailableRegressionTypes(data)` of the source: `linear` and
`polynomial` always, then each conditional `push` in source order. -/
def getAvailableRegressionTypes (data : List DataPoint) : List RegressionType :=
  [RegressionType.linear, RegressionType.polynomial]
    ++ (if data.any (fun point => 0 < point.y) then [RegressionType.exponential] else [])
    ++ (if data.any (fun point => 0 < point.x) then [RegressionType.logarithmic] else [])
    ++ (if data.any (fun point => 0 < point.x ∧ 0 < point.y) then [RegressionType.power] else [])
    ++ (if data.any (fun point => 0 ≤ point.y ∧ point.y ≤ 1) then [RegressionType.logistic]
        else [])

/-- A concrete interpretation of the abstract `Math` primitives, used
only to instantiate witnesses (every theorem holds for all
interpretations). -/
def dummyMath : JsMath where
  exp := fun q => q
  log := fun q => q
  sqrt := fun q => q
  powf := fun q _ => q
  pi := 3

/-- Spec formula: `slope = (nΣxy − ΣxΣy) / (nΣx² − (Σx)²)`. -/
def specSlope (data : List DataPoint) : ℚ :=
  let n : ℚ := data.length
  let sx := (data.map (fun point => point.x)).sum
  let sy := (data.map (fun point => point.y)).sum
  let sxy := (data.map (fun point => point.x * point.y)).sum
  let sx2 := (data.map (fun point => point.x * point.x)).sum
  (n * sxy - sx * sy) / (n * sx2 - sx ^ 2)

/-- Spec formula: `intercept = (Σy − slope·Σx) / n`. -/
def specIntercept (data : List DataPoint) : ℚ :=
  let n : ℚ := data.length
  ((data.map (fun point => point.y)).sum - specSlope data * (data.map (fun point => point.x)).sum)
    / n

/-- Spec formula: the least-squares denominator `nΣx² − (Σx)²`. -/
def specLSDenominator (data : List DataPoint) : ℚ :=
  (data.length : ℚ) * (data.map (fun point => point.x * point.x)).sum
    - ((data.map (fun point => point.x)).sum) ^ 2

/-- Spec formula: `MSE`, the mean squared residual. -/
def specMSE (data : List DataPoint) (predictions : List ℚ) : ℚ :=
  (List.zipWith (fun point yhat => (point.y - yhat) ^ 2) data predictions).sum
    / (data.length : ℚ)

/-- Spec formula: `logL = −0.5·n·ln(2π·MSE) − 0.5·n`. -/
def specLogLikelihood (M : JsMath) (data : List DataPoint) (predictions : List ℚ) : ℚ :=
  -(0.5) * (data.length : ℚ) * M.log (2 * M.pi * specMSE data predictions)
    - 0.5 * (data.length : ℚ)

/-- Spec formula: `R² = 1 − SS_res/SS_tot` over the fitted samples. -/
def specR2 (data : List DataPoint) (predictions : List ℚ) : ℚ :=
  let meanY := (data.map (fun point => point.y)).sum / (data.length : ℚ)
  1 - (List.zipWith (fun point yhat => (point.y - yhat) ^ 2) data predictions).sum
    / (data.map (fun point => (point.y - meanY) ^ 2)).sum

/-- `A·x = b`, the specification of a solved linear system. -/
def SolvesSystem {n : ℕ} (A : Mat n) (b x : Vec n) : Prop :=
  ∀ r, (∑ j, A r j * x j) = b r

/-! ### List bridging lemmas -/

lemma foldl_add_map {α : Type} (f : α → ℚ) (l : List α) (a : ℚ) :
    l.foldl (fun sum p => sum + f p) a = a + (l.map f).sum := by
  induction l generalizing a with
  | nil => simp
  | cons h t ih => simp [ih, add_assoc]

lemma foldl_add_map_zero {α : Type} (f : α → ℚ) (l : List α) :
    l.foldl (fun sum p => sum + f p) 0 = (l.map f).sum := by
  simpa using foldl_add_map f l 0

lemma foldl_add_id (l : List ℚ) :
    l.foldl (fun sum e => sum + e) 0 = l.sum := by
  simpa using foldl_add_map_zero (fun e => e) l

lemma zipWith_points_eq_map (f : ℚ → ℚ) (l : List DataPoint) :
    List.zipWith (fun point yhat => DataPoint.mk point.x yhat) l (l.map (fun p => f p.x))
      = l.map (fun p => DataPoint.mk p.x (f p.x)) := by
  rw [List.zipWith_map_right, List.zipWith_same]

/-! ### Claim theorems: available types and dispatch -/

/-- Claim C10: `getAvailableRegressionTypes` includes `linear` and
`polynomial` for every input sample set, including sets with fewer than
two samples, even though every fit on such a set returns no result. -/
theorem availableTypes_always_linear_polynomial (data : List DataPoint) :
    (RegressionType.linear ∈ getAvailableRegressionTypes data
      ∧ RegressionType.polynomial ∈ getAvailableRegressionTypes data)
    ∧ (data.length < 2 →
        ∀ (M : JsMath) (type : RegressionType) (order : ℕ),
          performRegression M data type order = none) := by
  constructor
  · constructor <;> · unfold getAvailableRegressionTypes; simp
  · intro h M type order
    unfold performRegression
    rw [if_pos h]

/-- Witness for C10 at the empty sample set. -/
theorem availableTypes_always_linear_polynomial_witness :
    (RegressionType.linear ∈ getAvailableRegressionTypes []
      ∧ RegressionType.polynomial ∈ getAvailableRegressionTypes [])
    ∧ performRegression dummyMath [] RegressionType.linear 2 = none :=
  ⟨(availableTypes_always_linear_polynomial []).1,
   (availableTypes_always_linear_polynomial []).2 (by decide) dummyMath RegressionType.linear 2⟩

/-- A sample set containing a negative y next to a positive y. -/
def dMixedY : List DataPoint := [⟨1, -1⟩, ⟨1, 2⟩]

/-- Claim C4 counterexample: a sample set containing a zero-or-negative y
value does NOT exclude `exponential`/`power` — the source only checks
that SOME sample has positive y (resp. positive x and y), so a mixed set
keeps both types available. -/
theorem availableTypes_negativeY_counterexample :
    DataPoint.mk 1 (-1) ∈ dMixedY
    ∧ RegressionType.exponential ∈ getAvailableRegressionTypes dMixedY
    ∧ RegressionType.power ∈ getAvailableRegressionTypes dMixedY := by
  decide

/-- Claim C4 (amended): when ALL y values are zero or negative,
`getAvailableRegressionTypes` excludes `exponential` and `power`, and it
always includes `linear` and `polynomial`. -/
theorem availableTypes_allNonpositiveY (data : List DataPoint)
    (h : ∀ p ∈ data, p.y ≤ 0) :
    RegressionType.exponential ∉ getAvailableRegressionTypes data
    ∧ RegressionType.power ∉ getAvailableRegressionTypes data
    ∧ RegressionType.linear ∈ getAvailableRegressionTypes data
    ∧ RegressionType.polynomial ∈ getAvailableRegressionTypes data := by
  have hy : (data.any fun point => decide (0 < point.y)) = false := by
    rw [List.any_eq_false]
    intro p hp
    simpa using not_lt.mpr (h p hp)
  have hxy : (data.any fun point => decide (0 < point.x ∧ 0 < point.y)) = false := by
    rw [List.any_eq_false]
    intro p hp
    simp only [decide_eq_true_eq, not_and]
    intro _
    exact not_lt.mpr (h p hp)
  unfold getAvailableRegressionTypes
  rw [hy, hxy]
  simp only [Bool.false_eq_true, if_false]
  split_ifs <;> decide

/-- All-nonpositive-y sample set used to witness the amended C4. -/
def dNegY : List DataPoint := [⟨1, -1⟩, ⟨2, 0⟩]

/-- Witness for the amended C4. -/
theorem availableTypes_allNonpositiveY_witness :
    RegressionType.exponential ∉ getAvailableRegressionTypes dNegY
    ∧ RegressionType.power ∉ getAvailableRegressionTypes dNegY
    ∧ RegressionType.linear ∈ getAvailableRegressionTypes dNegY
    ∧ RegressionType.polynomial ∈ getAvailableRegressionTypes dNegY :=
  availableTypes_allNonpositiveY dNegY (by decide)

/-! ### Claim theorems: linear core -/

/-- A sample set with two samples sharing the same x (zero x-variance). -/
def dZV : List DataPoint := [⟨1, 1⟩, ⟨1, 2⟩]

/-- Claim C1 (code evaluation): on a zero-x-variance sample set of length
two, the least-squares denominator `nΣx² − (Σx)²` is zero, yet
`linearRegression` still returns a result — the source has no guard, so
the JavaScript division `0/0` silently produces `NaN` coefficients
instead of the "no result" the specification requires. -/
theorem linearRegression_zeroVarianceX_eval :
    dZV.map (fun p => p.x) = [1, 1]
    ∧ specLSDenominator dZV = 0
    ∧ (linearRegression dummyMath dZV).isSome = true := by
  refine ⟨rfl, ?_, ?_⟩
  · norm_num [specLSDenominator, dZV]
  · simp [linearRegression, dZV]

/-- Claim C3: with at least two samples, `linearRegression` returns a
result whose slope and intercept are exactly the closed-form
least-squares formulas; with fewer than two samples it returns none. -/
theorem linearRegression_closedForm (M : JsMath) (data : List DataPoint) :
    (2 ≤ data.length →
      (linearRegression M data).map (fun r => (r.slope, r.intercept))
        = some (some (specSlope data), some (specIntercept data)))
    ∧ (data.length < 2 → linearRegression M data = none) := by
  constructor
  · intro h
    have hx := foldl_add_map_zero (fun point => point.x) data
    have hy := foldl_add_map_zero (fun point => point.y) data
    have hxy := foldl_add_map_zero (fun point => point.x * point.y) data
    have hx2 := foldl_add_map_zero (fun point => point.x * point.x) data
    have hslope : ((data.length : ℚ) * data.foldl (fun sum point => sum + point.x * point.y) 0
          - data.foldl (fun sum point => sum + point.x) 0
            * data.foldl (fun sum point => sum + point.y) 0)
        / ((data.length : ℚ) * data.foldl (fun sum point => sum + point.x * point.x) 0
          - data.foldl (fun sum point => sum + point.x) 0
            * data.foldl (fun sum point => sum + point.x) 0)
        = specSlope data := by
      rw [hx, hy, hxy, hx2]
      simp only [specSlope]
      rw [pow_two]
    rw [linearRegression, if_neg (not_lt.mpr h)]
    simp only [Option.map_some', Prod.mk.injEq, Option.some.injEq]
    refine ⟨hslope, ?_⟩
    simp only [specIntercept]
    rw [← hslope, hx, hy]
  · intro h
    rw [linearRegression, if_pos h]

/-- A two-sample set on the line y = 2 + 3x. -/
def dLin : List DataPoint := [⟨0, 2⟩, ⟨1, 5⟩]

/-- Witness for C3. -/
theorem linearRegression_closedForm_witness :
    2 ≤ dLin.length
    ∧ (linearRegression dummyMath dLin).map (fun r => (r.slope, r.intercept))
        = some (some (specSlope dLin), some (specIntercept dLin)) :=
  ⟨by decide, (linearRegression_closedForm dummyMath dLin).1 (by decide)⟩

/-! ### Claim theorems: metrics module -/

lemma sqErr_fold_eq (data : List DataPoint) (predictions : List ℚ) :
    ((List.zipWith (fun point yhat => point.y - yhat) data predictions).map
        (fun e => e * e)).foldl (fun sum e => sum + e) 0
      = (List.zipWith (fun point yhat => (point.y - yhat) ^ 2) data predictions).sum := by
  rw [foldl_add_id, List.map_zipWith]
  have hfg : (fun (a : DataPoint) (b : ℚ) => (a.y - b) * (a.y - b))
      = fun (a : DataPoint) (b : ℚ) => (a.y - b) ^ 2 := by
    funext a b
    ring
  rw [hfg]

/-- Claim C9: the metrics module computes AIC, BIC and adjusted R²
exactly by the Gaussian log-likelihood formulas of the specification:
`logL = −0.5·n·ln(2π·MSE) − 0.5·n`, `AIC = 2p − 2·logL`,
`BIC = ln(n)·p − 2·logL`, `adjusted R² = 1 − (1−R²)(n−1)/(n−p−1)`. -/
theorem calculateMetrics_formulas (M : JsMath) (data : List DataPoint)
    (predictions : List ℚ) (numParams : ℕ) :
    (calculateMetrics M data predictions numParams).aic
        = 2 * (numParams : ℚ) - 2 * specLogLikelihood M data predictions
    ∧ (calculateMetrics M data predictions numParams).bic
        = M.log (data.length : ℚ) * (numParams : ℚ)
            - 2 * specLogLikelihood M data predictions
    ∧ (calculateMetrics M data predictions numParams).adjustedR2
        = 1 - (1 - specR2 data predictions) * ((data.length : ℚ) - 1)
            / ((data.length : ℚ) - (numParams : ℚ) - 1) := by
  have hsq := sqErr_fold_eq data predictions
  have hy := foldl_add_map_zero (fun point => point.y) data
  simp only [calculateMetrics, specLogLikelihood, specMSE, specR2]
  rw [hsq, hy]
  rw [foldl_add_map_zero
    (fun point => (point.y - (data.map (fun point => point.y)).sum / (data.length : ℚ)) ^ 2) data]
  exact ⟨rfl, rfl, rfl⟩

/-! ### Claim theorems: polynomial fitter -/

/-- Claim C6: `polynomialRegression` returns no result whenever the
sample count is below `degree + 1`, and whenever the shared solver
reports singularity on the normal equations. -/
theorem polynomialRegression_degenerate (M : JsMath) (data : List DataPoint) (degree : ℕ) :
    (data.length < degree + 1 → polynomialRegression M data degree = none)
    ∧ (solveNormalEquations (designMatrix degree data) (data.map (fun point => point.y)) = none →
        polynomialRegression M data degree = none) := by
  constructor
  · intro h
    rw [polynomialRegression, if_pos h]
  · intro h
    rw [polynomialRegression]
    split
    · rfl
    · rw [h]

/-- A single sample: fewer than `degree + 1 = 3` samples. -/
def dPolyShort : List DataPoint := [⟨0, 0⟩]

/-- Two samples with identical x: the degree-1 normal equations are singular. -/
def dPolySing : List DataPoint := [⟨1, 1⟩, ⟨1, 2⟩]

lemma solveNormalEquations_dPolySing :
    solveNormalEquations (designMatrix 1 dPolySing) (dPolySing.map (fun point => point.y))
      = none := by
  norm_num [solveNormalEquations, designMatrix, dPolySing, gaussianElimination, geForwardAux,
    findMaxRow, swapRows, eliminateBelow, eliminateRHS, pivotTol, List.finRange, List.range,
    List.range.loop, Equiv.swap_apply_def, Fin.lt_def, Fin.le_def, Fin.ext_iff]

/-- Witness for C6: a too-short sample list and a singular normal system. -/
theorem polynomialRegression_degenerate_witness :
    polynomialRegression dummyMath dPolyShort 2 = none
    ∧ polynomialRegression dummyMath dPolySing 1 = none :=
  ⟨(polynomialRegression_degenerate dummyMath dPolyShort 2).1 (by decide),
   (polynomialRegression_degenerate dummyMath dPolySing 1).2 solveNormalEquations_dPolySing⟩

/-! ### Claim theorems: logistic fitter -/

/-- Claim C8: the logistic fitter runs its gradient-descent loop with a
hard cap of 1000 iterations (the fuel of `logisticLoop`) and returns the
parameters the loop ends with as a valid fit result — non-convergence is
not an error: whenever at least two samples have y ∈ [0, 1], a result is
returned and its coefficients are exactly the capped loop's output. -/
theorem logisticRegression_capped (M : JsMath) (data : List DataPoint)
    (h : 2 ≤ (data.filter (fun point => 0 ≤ point.y ∧ point.y ≤ 1)).length) :
    (logisticRegression M data).map (fun r => r.coefficients)
      = some
        [(logisticLoop M (data.filter (fun point => 0 ≤ point.y ∧ point.y ≤ 1)) 1000 (0, 0)).1,
         (logisticLoop M (data.filter (fun point => 0 ≤ point.y ∧ point.y ≤ 1)) 1000 (0, 0)).2] := by
  have hd : ¬ data.length < 2 := not_lt.mpr (le_trans h (List.length_filter_le _ data))
  simp only [logisticRegression]
  rw [if_neg hd, if_neg (not_lt.mpr h)]
  rfl

/-- Two samples with y ∈ [0, 1]. -/
def dLogi : List DataPoint := [⟨0, 0⟩, ⟨1, 1⟩]

/-- Witness for C8. -/
theorem logisticRegression_capped_witness :
    (logisticRegression dummyMath dLogi).map (fun r => r.coefficients)
      = some
        [(logisticLoop dummyMath (dLogi.filter (fun point => 0 ≤ point.y ∧ point.y ≤ 1))
            1000 (0, 0)).1,
         (logisticLoop dummyMath (dLogi.filter (fun point => 0 ≤ point.y ∧ point.y ≤ 1))
            1000 (0, 0)).2] :=
  logisticRegression_capped dummyMath dLogi (by decide)

/-! ### Claim theorems: transform-based fitters -/

lemma points_map_x (f : ℚ → ℚ) (l : List DataPoint) :
    (List.zipWith (fun point yhat => DataPoint.mk point.x yhat) l
        (l.map (fun p => f p.x))).map (fun q => q.x)
      = l.map (fun p => p.x) := by
  rw [zipWith_points_eq_map, List.map_map]
  rfl

/-- Claim C7: each transform-based fitter returns no result exactly when
fewer than two samples survive its model-specific filter (`y > 0` for
exponential, `x > 0` for logarithmic, `x > 0 ∧ y > 0` for power); when at
least two survive, a fit over exactly the filtered subset is returned
(witnessed by the x-values of its predicted points). -/
theorem transformFitters_filtering (M : JsMath) (data : List DataPoint) :
    (((data.filter (fun point => 0 < point.y)).length < 2 →
        exponentialRegression M data = none)
      ∧ (2 ≤ (data.filter (fun point => 0 < point.y)).length →
          (exponentialRegression M data).map (fun r => r.points.map (fun q => q.x))
            = some ((data.filter (fun point => 0 < point.y)).map (fun p => p.x))))
    ∧ (((data.filter (fun point => 0 < point.x)).length < 2 →
        logarithmicRegression M data = none)
      ∧ (2 ≤ (data.filter (fun point => 0 < point.x)).length →
          (logarithmicRegression M data).map (fun r => r.points.map (fun q => q.x))
            = some ((data.filter (fun point => 0 < point.x)).map (fun p => p.x))))
    ∧ (((data.filter (fun point => 0 < point.x ∧ 0 < point.y)).length < 2 →
        powerRegression M data = none)
      ∧ (2 ≤ (data.filter (fun point => 0 < point.x ∧ 0 < point.y)).length →
          (powerRegression M data).map (fun r => r.points.map (fun q => q.x))
            = some ((data.filter (fun point => 0 < point.x ∧ 0 < point.y)).map
                (fun p => p.x)))) := by
  refine ⟨⟨?_, ?_⟩, ⟨?_, ?_⟩, ⟨?_, ?_⟩⟩
  · intro h
    simp only [exponentialRegression]
    by_cases hd : data.length < 2
    · rw [if_pos hd]
    · rw [if_neg hd, if_pos h]
  · intro h
    have hd : ¬ data.length < 2 := not_lt.mpr (le_trans h (List.length_filter_le _ data))
    simp only [exponentialRegression]
    rw [if_neg hd, if_neg (not_lt.mpr h)]
    cases hl : linearRegression M ((data.filter (fun point => 0 < point.y)).map
        (fun point => DataPoint.mk point.x (M.log point.y))) with
    | none =>
      rw [linearRegression, if_neg (by simpa using not_lt.mpr h)] at hl
      exact absurd hl (by simp)
    | some lr =>
      dsimp only
      simp only [Option.map_some', Option.some.injEq]
      exact points_map_x (fun x => M.exp (lr.intercept.getD 0) * M.exp (lr.slope.getD 0 * x)) _
  · intro h
    simp only [logarithmicRegression]
    by_cases hd : data.length < 2
    · rw [if_pos hd]
    · rw [if_neg hd, if_pos h]
  · intro h
    have hd : ¬ data.length < 2 := not_lt.mpr (le_trans h (List.length_filter_le _ data))
    simp only [logarithmicRegression]
    rw [if_neg hd, if_neg (not_lt.mpr h)]
    cases hl : linearRegression M ((data.filter (fun point => 0 < point.x)).map
        (fun point => DataPoint.mk (M.log point.x) point.y)) with
    | none =>
      rw [linearRegression, if_neg (by simpa using not_lt.mpr h)] at hl
      exact absurd hl (by simp)
    | some lr =>
      dsimp only
      simp only [Option.map_some', Option.some.injEq]
      exact points_map_x (fun x => lr.intercept.getD 0 + lr.slope.getD 0 * M.log x) _
  · intro h
    simp only [powerRegression]
    by_cases hd : data.length < 2
    · rw [if_pos hd]
    · rw [if_neg hd, if_pos h]
  · intro h
    have hd : ¬ data.length < 2 := not_lt.mpr (le_trans h (List.length_filter_le _ data))
    simp only [powerRegression]
    rw [if_neg hd, if_neg (not_lt.mpr h)]
    cases hl : linearRegression M ((data.filter (fun point => 0 < point.x ∧ 0 < point.y)).map
        (fun point => DataPoint.mk (M.log point.x) (M.log point.y))) with
    | none =>
      rw [linearRegression, if_neg (by simpa using not_lt.mpr h)] at hl
      exact absurd hl (by simp)
    | some lr =>
      dsimp only
      simp only [Option.map_some', Option.some.injEq]
      exact points_map_x (fun x => M.exp (lr.intercept.getD 0) * M.powf x (lr.slope.getD 0)) _

/-- A sample whose coordinates fail every transform filter. -/
def dTFbad : List DataPoint := [⟨-1, -1⟩]

/-- Two samples with positive x and y, surviving every transform filter. -/
def dTFgood : List DataPoint := [⟨1, 1⟩, ⟨2, 3⟩]

/-- Witness for C7: all six implications at concrete inputs. -/
theorem transformFitters_filtering_witness :
    (exponentialRegression dummyMath dTFbad = none
      ∧ (exponentialRegression dummyMath dTFgood).map (fun r => r.points.map (fun q => q.x))
          = some ((dTFgood.filter (fun point => 0 < point.y)).map (fun p => p.x)))
    ∧ (logarithmicRegression dummyMath dTFbad = none
      ∧ (logarithmicRegression dummyMath dTFgood).map (fun r => r.points.map (fun q => q.x))
          = some ((dTFgood.filter (fun point => 0 < point.x)).map (fun p => p.x)))
    ∧ (powerRegression dummyMath dTFbad = none
      ∧ (powerRegression dummyMath dTFgood).map (fun r => r.points.map (fun q => q.x))
          = some ((dTFgood.filter (fun point => 0 < point.x ∧ 0 < point.y)).map
              (fun p => p.x))) :=
  ⟨⟨(transformFitters_filtering dummyMath dTFbad).1.1 (by decide),
    (transformFitters_filtering dummyMath dTFgood).1.2 (by decide)⟩,
   ⟨(transformFitters_filtering dummyMath dTFbad).2.1.1 (by decide),
    (transformFitters_filtering dummyMath dTFgood).2.1.2 (by decide)⟩,
   ⟨(transformFitters_filtering dummyMath dTFbad).2.2.1 (by decide),
    (transformFitters_filtering dummyMath dTFgood).2.2.2 (by decide)⟩⟩

/-! ### Claim theorems: predict / predicted-points consistency -/

lemma zipWith_points_eq_mapG (G : DataPoint → ℚ) (l : List DataPoint) :
    List.zipWith (fun point yhat => DataPoint.mk point.x yhat) l (l.map G)
      = l.map (fun p => DataPoint.mk p.x (G p)) := by
  rw [List.zipWith_map_right, List.zipWith_same]

lemma linearRegression_predict_consistent (M : JsMath) (data : List DataPoint)
    (r : RegressionResult) (h : linearRegression M data = some r) :
    r.points.map (fun q => r.predict q.x) = r.points.map (fun q => q.y) := by
  simp only [linearRegression] at h
  split at h
  · exact absurd h (by simp)
  · injection h with h
    subst h
    dsimp only
    apply List.map_congr_left
    intro q hq
    rw [zipWith_points_eq_mapG] at hq
    obtain ⟨p, hp, rfl⟩ := List.mem_map.mp hq
    rfl

lemma polynomialRegression_predict_consistent (M : JsMath) (data : List DataPoint)
    (degree : ℕ) (r : RegressionResult) (h : polynomialRegression M data degree = some r) :
    r.points.map (fun q => r.predict q.x) = r.points.map (fun q => q.y) := by
  simp only [polynomialRegression] at h
  split at h
  · exact absurd h (by simp)
  · split at h
    · exact absurd h (by simp)
    · injection h with h
      subst h
      dsimp only
      apply List.map_congr_left
      intro q hq
      rw [zipWith_points_eq_mapG] at hq
      obtain ⟨p, hp, rfl⟩ := List.mem_map.mp hq
      rfl

lemma exponentialRegression_predict_consistent (M : JsMath) (data : List DataPoint)
    (r : RegressionResult) (h : exponentialRegression M data = some r) :
    r.points.map (fun q => r.predict q.x) = r.points.map (fun q => q.y) := by
  simp only [exponentialRegression] at h
  split at h
  · exact absurd h (by simp)
  · split at h
    · exact absurd h (by simp)
    · split at h
      · exact absurd h (by simp)
      · injection h with h
        subst h
        dsimp only
        apply List.map_congr_left
        intro q hq
        rw [zipWith_points_eq_mapG] at hq
        obtain ⟨p, hp, rfl⟩ := List.mem_map.mp hq
        rfl

lemma logarithmicRegression_predict_consistent (M : JsMath) (data : List DataPoint)
    (r : RegressionResult) (h : logarithmicRegression M data = some r) :
    r.points.map (fun q => r.predict q.x) = r.points.map (fun q => q.y) := by
  simp only [logarithmicRegression] at h
  split at h
  · exact absurd h (by simp)
  · split at h
    · exact absurd h (by simp)
    · split at h
      · exact absurd h (by simp)
      · injection h with h
        subst h
        dsimp only
        apply List.map_congr_left
        intro q hq
        rw [zipWith_points_eq_mapG] at hq
        obtain ⟨p, hp, rfl⟩ := List.mem_map.mp hq
        rfl

lemma powerRegression_predict_consistent (M : JsMath) (data : List DataPoint)
    (r : RegressionResult) (h : powerRegression M data = some r) :
    r.points.map (fun q => r.predict q.x) = r.points.map (fun q => q.y) := by
  simp only [powerRegression] at h
  split at h
  · exact absurd h (by simp)
  · split at h
    · exact absurd h (by simp)
    · split at h
      · exact absurd h (by simp)
      · injection h with h
        subst h
        dsimp only
        apply List.map_congr_left
        intro q hq
        rw [zipWith_points_eq_mapG] at hq
        obtain ⟨p, hp, rfl⟩ := List.mem_map.mp hq
        rfl

lemma logisticRegression_predict_consistent (M : JsMath) (data : List DataPoint)
    (r : RegressionResult) (h : logisticRegression M data = some r) :
    r.points.map (fun q => r.predict q.x) = r.points.map (fun q => q.y) := by
  simp only [logisticRegression] at h
  split at h
  · exact absurd h (by simp)
  · split at h
    · exact absurd h (by simp)
    · injection h with h
      subst h
      dsimp only
      apply List.map_congr_left
      intro q hq
      rw [zipWith_points_eq_mapG] at hq
      obtain ⟨p, hp, rfl⟩ := List.mem_map.mp hq
      rfl

/-- Claim C5: for every model kind and every sample list for which a fit
result is returned, the result's `predict` function evaluated at the x
of each predicted point equals that point's y — the returned function
and returned point list agree at every fitted sample (the x of the i-th
predicted point is the x of the i-th sample used by the fit). -/
theorem predict_matches_predicted_points (M : JsMath) (data : List DataPoint)
    (type : RegressionType) (order : ℕ) (r : RegressionResult)
    (h : performRegression M data type order = some r) :
    r.points.map (fun q => r.predict q.x) = r.points.map (fun q => q.y) := by
  simp only [performRegression] at h
  split at h
  · exact absurd h (by simp)
  · cases type with
    | linear => exact linearRegression_predict_consistent M data r h
    | polynomial => exact polynomialRegression_predict_consistent M data order r h
    | exponential => exact exponentialRegression_predict_consistent M data r h
    | logarithmic => exact logarithmicRegression_predict_consistent M data r h
    | power => exact powerRegression_predict_consistent M data r h
    | logistic => exact logisticRegression_predict_consistent M data r h

def perfLinExample : Option RegressionResult :=
  performRegression dummyMath dLin RegressionType.linear 2

lemma perfLinExample_isSome : perfLinExample.isSome = true := by
  simp [perfLinExample, performRegression, linearRegression, dLin]

/-- The concrete linear fit result on `dLin`. -/
def rLinExample : RegressionResult := perfLinExample.get perfLinExample_isSome

lemma perfLinExample_eq :
    performRegression dummyMath dLin RegressionType.linear 2 = some rLinExample :=
  (Option.some_get perfLinExample_isSome).symm

/-- Witness for C5. -/
theorem predict_matches_predicted_points_witness :
    rLinExample.points.map (fun q => rLinExample.predict q.x)
      = rLinExample.points.map (fun q => q.y) :=
  predict_matches_predicted_points dummyMath dLin RegressionType.linear 2 rLinExample
    perfLinExample_eq

/-! ### Gaussian elimination: index and pivot lemmas -/

lemma mem_drop_finRange {n m : ℕ} (j : Fin n) :
    j ∈ (List.finRange n).drop m ↔ m ≤ j.val := by
  constructor
  · intro hj
    rw [List.mem_iff_getElem] at hj
    obtain ⟨i, hi, hij⟩ := hj
    rw [List.getElem_drop] at hij
    have hval : m + i = j.val := by
      simpa using congrArg Fin.val hij
    omega
  · intro hm
    rw [List.mem_iff_getElem]
    refine ⟨j.val - m, ?_, ?_⟩
    · rw [List.length_drop, List.length_finRange]
      omega
    · rw [List.getElem_drop]
      apply Fin.ext
      have : m + (j.val - m) = j.val := by omega
      simp [this]

lemma foldl_pivot_ge {n : ℕ} (col : Vec n) (l : List (Fin n)) (i : Fin n) :
    ∀ cur : Fin n, i ≤ cur → (∀ k ∈ l, i ≤ k) →
      i ≤ l.foldl (fun cur k => if |col k| > |col cur| then k else cur) cur := by
  induction l with
  | nil => intro cur hcur _; exact hcur
  | cons a t ih =>
    intro cur hcur hl
    simp only [List.foldl_cons]
    apply ih
    · dsimp only
      split
      · exact hl a (List.mem_cons_self a t)
      · exact hcur
    · intro k hk
      exact hl k (List.mem_cons_of_mem a hk)

lemma findMaxRow_ge {n : ℕ} (col : Vec n) (i : Fin n) : i ≤ findMaxRow col i := by
  apply foldl_pivot_ge
  · exact le_refl i
  · intro k hk
    have hk' := (mem_drop_finRange k).mp hk
    rw [Fin.le_def]
    omega

lemma drop_map_sum_eq_Ioi {n : ℕ} (i : Fin n) (f : Fin n → ℚ) :
    (((List.finRange n).drop (i.val + 1)).map f).sum = ∑ j ∈ Finset.Ioi i, f j := by
  have hnd : ((List.finRange n).drop (i.val + 1)).Nodup :=
    List.Nodup.sublist (List.drop_sublist _ _) (List.nodup_finRange n)
  rw [← List.sum_toFinset f hnd]
  congr 1
  ext j
  simp only [List.mem_toFinset, mem_drop_finRange, Finset.mem_Ioi, Fin.lt_def]
  omega

/-! ### Gaussian elimination: row operations preserve solutions -/

lemma solvesSystem_swap_iff {n : ℕ} (A : Mat n) (b : Vec n) (i m : Fin n) (x : Vec n) :
    SolvesSystem (swapRows A i m) (swapRows b i m) x ↔ SolvesSystem A b x := by
  unfold SolvesSystem swapRows
  constructor
  · intro h r
    have h2 := h (Equiv.swap i m r)
    rwa [Equiv.swap_apply_self] at h2
  · intro h r
    exact h (Equiv.swap i m r)

lemma eliminate_solves {n : ℕ} (A : Mat n) (b : Vec n) (i : Fin n) (x : Vec n)
    (hrow : ∀ j : Fin n, j < i → A i j = 0)
    (h : SolvesSystem (eliminateBelow A i) (eliminateRHS A b i) x) :
    SolvesSystem A b x := by
  have hi : (∑ j, A i j * x j) = b i := by
    have h2 := h i
    simpa [eliminateBelow, eliminateRHS] using h2
  intro r
  by_cases hr : i < r
  · have h2 := h r
    simp only [eliminateBelow, eliminateRHS, hr, true_and, if_pos hr, if_true] at h2
    have hsummand : ∀ j : Fin n,
        (if i ≤ j then A r j - A r i / A i i * A i j else A r j) * x j
          = A r j * x j - (if i ≤ j then A r i / A i i * (A i j * x j) else 0) := by
      intro j
      split <;> ring
    rw [Finset.sum_congr rfl (fun j _ => hsummand j), Finset.sum_sub_distrib] at h2
    have hite : (∑ j, if i ≤ j then A r i / A i i * (A i j * x j) else 0)
        = A r i / A i i * ∑ j, A i j * x j := by
      rw [Finset.mul_sum]
      apply Finset.sum_congr rfl
      intro j _
      by_cases hij : i ≤ j
      · rw [if_pos hij]
      · rw [if_neg hij, hrow j (not_le.mp hij), zero_mul, mul_zero]
    rw [hite, hi] at h2
    linarith [h2]
  · have h2 := h r
    simpa [eliminateBelow, eliminateRHS, hr] using h2

/-! ### Gaussian elimination: shape invariants of forward elimination -/

/-- Columns `< i` are zero below the diagonal (the processed part of the
matrix is lower-triangular-free). -/
def TriBelow {n : ℕ} (i : ℕ) (A : Mat n) : Prop :=
  ∀ k j : Fin n, j.val < k.val → j.val < i → A k j = 0

/-- The first `i` diagonal entries are nonzero (accepted pivots). -/
def DiagNonzero {n : ℕ} (i : ℕ) (A : Mat n) : Prop :=
  ∀ k : Fin n, k.val < i → A k k ≠ 0

lemma triBelow_swap {n : ℕ} {A : Mat n} {i : ℕ} (iv m : Fin n) (hiv : iv.val = i)
    (hm : iv ≤ m) (hA : TriBelow i A) : TriBelow i (swapRows A iv m) := by
  intro k j hjk hji
  unfold swapRows
  have hmv := Fin.le_def.mp hm
  by_cases h1 : k = iv
  · rw [h1, Equiv.swap_apply_left]
    exact hA m j (by omega) hji
  · by_cases h2 : k = m
    · rw [h2, Equiv.swap_apply_right]
      exact hA iv j (by omega) hji
    · rw [Equiv.swap_apply_of_ne_of_ne h1 h2]
      exact hA k j hjk hji

lemma diagNonzero_swap {n : ℕ} {A : Mat n} {i : ℕ} (iv m : Fin n) (hiv : iv.val = i)
    (hm : iv ≤ m) (hA : DiagNonzero i A) : DiagNonzero i (swapRows A iv m) := by
  intro k hk
  unfold swapRows
  have hmv := Fin.le_def.mp hm
  have h1 : k ≠ iv := by
    intro e
    rw [e] at hk
    omega
  have h2 : k ≠ m := by
    intro e
    rw [e] at hk
    omega
  rw [Equiv.swap_apply_of_ne_of_ne h1 h2]
  exact hA k hk

lemma triBelow_eliminate {n : ℕ} {A : Mat n} {iv : Fin n}
    (hA : TriBelow iv.val A) (hpiv : A iv iv ≠ 0) :
    TriBelow (iv.val + 1) (eliminateBelow A iv) := by
  intro k j hjk hji
  unfold eliminateBelow
  by_cases hj : j.val < iv.val
  · rw [if_neg]
    · exact hA k j hjk hj
    · rintro ⟨-, hle⟩
      exact absurd (Fin.le_def.mp hle) (by omega)
  · have hjeq : j = iv := Fin.ext (by omega)
    have hjv : j.val = iv.val := congrArg Fin.val hjeq
    rw [hjeq]
    have hik : iv < k := by
      rw [Fin.lt_def]
      omega
    rw [if_pos ⟨hik, le_refl _⟩, div_mul_cancel₀ _ hpiv, sub_self]

lemma diagNonzero_eliminate {n : ℕ} {A : Mat n} {iv : Fin n}
    (hA : DiagNonzero iv.val A) (hpiv : A iv iv ≠ 0) :
    DiagNonzero (iv.val + 1) (eliminateBelow A iv) := by
  intro k hk
  unfold eliminateBelow
  by_cases hkv : k.val < iv.val
  · rw [if_neg]
    · exact hA k hkv
    · rintro ⟨hlt, -⟩
      exact absurd (Fin.lt_def.mp hlt) (by omega)
  · have hkeq : k = iv := Fin.ext (by omega)
    subst hkeq
    rw [if_neg (by rintro ⟨hlt, -⟩; exact lt_irrefl _ hlt)]
    exact hpiv

/-! ### Gaussian elimination: forward pass soundness -/

lemma geForwardAux_sound {n : ℕ} :
    ∀ (fuel i : ℕ) (A : Mat n) (b : Vec n) (U : Mat n) (c : Vec n),
      n ≤ i + fuel → TriBelow i A → DiagNonzero i A →
      geForwardAux fuel i A b = some (U, c) →
      TriBelow n U ∧ DiagNonzero n U
        ∧ ∀ x, SolvesSystem U c x → SolvesSystem A b x := by
  intro fuel
  induction fuel with
  | zero =>
    intro i A b U c hn hT hD h
    simp only [geForwardAux, Option.some.injEq, Prod.mk.injEq] at h
    obtain ⟨rfl, rfl⟩ := h
    exact ⟨fun k j hjk hji => hT k j hjk (by omega),
           fun k hk => hD k (by omega),
           fun x hx => hx⟩
  | succ fuel ih =>
    intro i A b U c hn hT hD h
    simp only [geForwardAux] at h
    split at h
    case isTrue hin =>
      set m := findMaxRow (fun r => A r ⟨i, hin⟩) ⟨i, hin⟩ with hmdef
      split at h
      case isTrue => exact absurd h (by simp)
      case isFalse hp =>
        have hpivot : swapRows A ⟨i, hin⟩ m ⟨i, hin⟩ ⟨i, hin⟩ ≠ 0 := by
          intro h0
          apply hp
          rw [h0]
          norm_num [pivotTol]
        have hmge : (⟨i, hin⟩ : Fin n) ≤ m := by
          rw [hmdef]
          exact findMaxRow_ge _ _
        have hT1 : TriBelow i (swapRows A ⟨i, hin⟩ m) := triBelow_swap _ m rfl hmge hT
        have hD1 : DiagNonzero i (swapRows A ⟨i, hin⟩ m) := diagNonzero_swap _ m rfl hmge hD
        have hT2 : TriBelow (i + 1) (eliminateBelow (swapRows A ⟨i, hin⟩ m) ⟨i, hin⟩) :=
          triBelow_eliminate hT1 hpivot
        have hD2 : DiagNonzero (i + 1) (eliminateBelow (swapRows A ⟨i, hin⟩ m) ⟨i, hin⟩) :=
          diagNonzero_eliminate hD1 hpivot
        obtain ⟨hTU, hDU, hpres⟩ := ih (i + 1) _ _ U c (by omega) hT2 hD2 h
        refine ⟨hTU, hDU, fun x hx => ?_⟩
        have hx2 := hpres x hx
        have hx1 : SolvesSystem (swapRows A ⟨i, hin⟩ m) (swapRows b ⟨i, hin⟩ m) x :=
          eliminate_solves _ _ ⟨i, hin⟩ x
            (fun j hj => hT1 ⟨i, hin⟩ j (Fin.lt_def.mp hj) (Fin.lt_def.mp hj)) hx2
        exact (solvesSystem_swap_iff A b ⟨i, hin⟩ m x).mp hx1
    case isFalse hin =>
      simp only [Option.some.injEq, Prod.mk.injEq] at h
      obtain ⟨rfl, rfl⟩ := h
      have hni : n ≤ i := le_of_not_lt hin
      exact ⟨fun k j hjk hji => hT k j hjk (by omega),
             fun k hk => hD k (by omega),
             fun x hx => hx⟩

/-! ### Gaussian elimination: singular inputs are rejected -/

lemma geForwardAux_zeroRow {n : ℕ} :
    ∀ (fuel i : ℕ) (A : Mat n) (b : Vec n),
      (∃ r : Fin n, i ≤ r.val ∧ ∀ j, A r j = 0) → n ≤ i + fuel →
      geForwardAux fuel i A b = none := by
  intro fuel
  induction fuel with
  | zero =>
    rintro i A b ⟨r, hir, hrow⟩ hn
    exact absurd r.isLt (by omega)
  | succ fuel ih =>
    rintro i A b ⟨r, hir, hrow⟩ hn
    simp only [geForwardAux]
    split
    case isTrue hin =>
      set m := findMaxRow (fun r => A r ⟨i, hin⟩) ⟨i, hin⟩ with hmdef
      have hmge : (⟨i, hin⟩ : Fin n) ≤ m := by
        rw [hmdef]
        exact findMaxRow_ge _ _
      have hmv := Fin.le_def.mp hmge
      have hzero1 : ∀ j, swapRows A ⟨i, hin⟩ m (Equiv.swap ⟨i, hin⟩ m r) j = 0 := by
        intro j
        unfold swapRows
        rw [Equiv.swap_apply_self]
        exact hrow j
      by_cases hri : Equiv.swap ⟨i, hin⟩ m r = ⟨i, hin⟩
      · have h0 : swapRows A ⟨i, hin⟩ m ⟨i, hin⟩ ⟨i, hin⟩ = 0 := by
          have h1 := hzero1 ⟨i, hin⟩
          rwa [hri] at h1
        have hcond : |swapRows A ⟨i, hin⟩ m ⟨i, hin⟩ ⟨i, hin⟩| < pivotTol := by
          rw [h0]
          norm_num [pivotTol]
        rw [if_pos hcond]
      · have hploc : i < (Equiv.swap ⟨i, hin⟩ m r).val := by
          by_cases h1 : r = ⟨i, hin⟩
          · rw [h1, Equiv.swap_apply_left]
            have hne : m ≠ ⟨i, hin⟩ := by
              intro e
              apply hri
              rw [h1, Equiv.swap_apply_left, e]
            have hnev : m.val ≠ i := by
              intro e
              exact hne (Fin.ext e)
            omega
          · by_cases h2 : r = m
            · exfalso
              apply hri
              rw [h2, Equiv.swap_apply_right]
            · rw [Equiv.swap_apply_of_ne_of_ne h1 h2]
              have hnev : r.val ≠ i := by
                intro e
                exact h1 (Fin.ext e)
              omega
        split
        · rfl
        · apply ih
          · refine ⟨Equiv.swap ⟨i, hin⟩ m r, by omega, ?_⟩
            intro j
            unfold eliminateBelow
            split <;> simp [hzero1]
          · omega
    case isFalse hin =>
      exact absurd r.isLt (by omega)

/-! ### Gaussian elimination: back substitution -/

lemma backSubStep_apply_same {n : ℕ} (U : Mat n) (c x : Vec n) (i : Fin n) :
    backSubStep U c x i i
      = (c i - (((List.finRange n).drop (i.val + 1)).map (fun j => U i j * x j)).sum)
          / U i i := by
  unfold backSubStep
  rw [Function.update_same]

lemma backSubStep_apply_noteq {n : ℕ} (U : Mat n) (c x : Vec n) (i k : Fin n)
    (h : k ≠ i) : backSubStep U c x i k = x k := by
  unfold backSubStep
  rw [Function.update_noteq h]

lemma backSub_foldr {n : ℕ} (U : Mat n) (c : Vec n) :
    ∀ (l : List (Fin n)) (x0 : Vec n), l.Pairwise (· < ·) →
      (∀ k ∈ l, (l.foldr (fun i x => backSubStep U c x i) x0) k
          = (c k - (((List.finRange n).drop (k.val + 1)).map
              (fun j => U k j * (l.foldr (fun i x => backSubStep U c x i) x0) j)).sum) / U k k)
      ∧ (∀ k, k ∉ l → (l.foldr (fun i x => backSubStep U c x i) x0) k = x0 k) := by
  intro l
  induction l with
  | nil =>
    intro x0 _
    exact ⟨fun k hk => absurd hk (List.not_mem_nil k), fun k _ => rfl⟩
  | cons a t ih =>
    intro x0 hp
    have hpt : t.Pairwise (· < ·) := hp.of_cons
    have hat : ∀ k ∈ t, a < k := (List.pairwise_cons.mp hp).1
    obtain ⟨ih1, ih2⟩ := ih x0 hpt
    constructor
    · intro k hk
      simp only [List.foldr_cons]
      rcases List.mem_cons.mp hk with rfl | hkt
      · have hmaps : ((List.finRange n).drop (k.val + 1)).map
              (fun j => U k j
                * backSubStep U c (t.foldr (fun i x => backSubStep U c x i) x0) k j)
            = ((List.finRange n).drop (k.val + 1)).map
              (fun j => U k j * (t.foldr (fun i x => backSubStep U c x i) x0) j) := by
          refine List.map_congr_left fun j hj => ?_
          have hjk := (mem_drop_finRange j).mp hj
          rw [backSubStep_apply_noteq _ _ _ _ _ (by intro e; subst e; omega)]
        rw [backSubStep_apply_same, hmaps]
      · have hka : k ≠ a := ne_of_gt (hat k hkt)
        have hmaps : ((List.finRange n).drop (k.val + 1)).map
              (fun j => U k j
                * backSubStep U c (t.foldr (fun i x => backSubStep U c x i) x0) a j)
            = ((List.finRange n).drop (k.val + 1)).map
              (fun j => U k j * (t.foldr (fun i x => backSubStep U c x i) x0) j) := by
          refine List.map_congr_left fun j hj => ?_
          have hjk := (mem_drop_finRange j).mp hj
          have hak := Fin.lt_def.mp (hat k hkt)
          rw [backSubStep_apply_noteq _ _ _ _ _ (by intro e; subst e; omega)]
        rw [backSubStep_apply_noteq _ _ _ _ _ hka, ih1 k hkt, hmaps]
    · intro k hk
      have hka : k ≠ a := fun e => hk (e ▸ List.mem_cons_self a t)
      have hkt : k ∉ t := fun ht => hk (List.mem_cons_of_mem a ht)
      simp only [List.foldr_cons]
      rw [backSubStep_apply_noteq _ _ _ _ _ hka]
      exact ih2 k hkt

lemma backSubstitute_spec {n : ℕ} (U : Mat n) (c : Vec n) (k : Fin n) :
    backSubstitute U c k
      = (c k - (((List.finRange n).drop (k.val + 1)).map
          (fun j => U k j * backSubstitute U c j)).sum) / U k k := by
  have hfold : backSubstitute U c
      = (List.finRange n).foldr (fun i x => backSubStep U c x i) (fun _ => 0) := by
    rw [backSubstitute, List.foldl_reverse]
  rw [hfold]
  exact (backSub_foldr U c (List.finRange n) (fun _ => 0)
    (List.pairwise_lt_finRange n)).1 k (List.mem_finRange k)

lemma backSubstitute_solves {n : ℕ} (U : Mat n) (c : Vec n)
    (hT : TriBelow n U) (hD : DiagNonzero n U) :
    SolvesSystem U c (backSubstitute U c) := by
  intro r
  have hsplit : (∑ j, U r j * backSubstitute U c j)
      = U r r * backSubstitute U c r
        + ∑ j ∈ Finset.univ.erase r, U r j * backSubstitute U c j :=
    (Finset.add_sum_erase _ _ (Finset.mem_univ r)).symm
  have herase : (∑ j ∈ Finset.univ.erase r, U r j * backSubstitute U c j)
      = ∑ j ∈ Finset.Ioi r, U r j * backSubstitute U c j := by
    refine (Finset.sum_subset ?_ ?_).symm
    · intro j hj
      simp only [Finset.mem_Ioi] at hj
      simp [ne_of_gt hj]
    · intro j hj hnot
      simp only [Finset.mem_erase, Finset.mem_univ, and_true] at hj
      simp only [Finset.mem_Ioi] at hnot
      have hjr : j < r := lt_of_le_of_ne (not_lt.mp hnot) hj
      rw [hT r j (Fin.lt_def.mp hjr) j.isLt, zero_mul]
  have hxr := backSubstitute_spec U c r
  rw [drop_map_sum_eq_Ioi] at hxr
  have hUrr : U r r ≠ 0 := hD r r.isLt
  rw [hsplit, herase, hxr, mul_comm, div_mul_cancel₀ _ hUrr, sub_add_cancel]

/-! ### Claim theorems: Gaussian elimination solver -/

/-- Claim C2: whenever `gaussianElimination` returns a vector (which it
does exactly when every partial-pivoting-selected pivot passes the
`1e-10` magnitude check), that vector exactly solves `A·x = b`; and for
a singular input containing a zero row it always reports SINGULAR
(returns no vector), never a spurious numeric vector. -/
theorem gaussianElimination_sound_and_singular {n : ℕ} (A : Mat n) (b : Vec n) :
    (∀ x, gaussianElimination A b = some x → SolvesSystem A b x)
    ∧ ((∃ r, ∀ j, A r j = 0) → gaussianElimination A b = none) := by
  constructor
  · intro x hx
    rw [gaussianElimination] at hx
    obtain ⟨⟨U, c⟩, hUc, hxeq⟩ := Option.map_eq_some'.mp hx
    obtain ⟨hTU, hDU, hpres⟩ := geForwardAux_sound n 0 A b U c (by omega)
      (fun k j hjk hji => absurd hji (by omega))
      (fun k hk => absurd hk (by omega)) hUc
    have hsol := backSubstitute_solves U c hTU hDU
    dsimp only at hxeq
    rw [hxeq] at hsol
    exact hpres x hsol
  · rintro ⟨r, hr⟩
    rw [gaussianElimination, geForwardAux_zeroRow n 0 A b ⟨r, by omega, hr⟩ (by omega)]
    rfl

/-- The 2×2 identity matrix. -/
def Aid2 : Mat 2 := fun i j => if i = j then 1 else 0

/-- A concrete right-hand side. -/
def bW : Vec 2 := fun r => if r.val = 0 then 3 else 4

/-- The 2×2 zero matrix (every row is a zero row). -/
def Azero2 : Mat 2 := fun _ _ => 0

def geW : Option (Vec 2) := gaussianElimination Aid2 bW

lemma geW_isSome : geW.isSome = true := by
  norm_num [geW, gaussianElimination, geForwardAux, findMaxRow, swapRows, eliminateBelow,
    eliminateRHS, Aid2, bW, List.finRange, List.range, List.range.loop, pivotTol,
    Equiv.swap_apply_def, Fin.ext_iff, Fin.lt_def, Fin.le_def]

/-- The concrete solution vector returned on `(Aid2, bW)`. -/
def xW : Vec 2 := geW.get geW_isSome

lemma geW_eq : gaussianElimination Aid2 bW = some xW :=
  (Option.some_get geW_isSome).symm

/-- Witness for C2: the returned vector solves the system (row 0 shown),
and the zero matrix is reported singular. -/
theorem gaussianElimination_sound_and_singular_witness :
    (∑ j, Aid2 0 j * xW j) = bW 0 ∧ gaussianElimination Azero2 bW = none :=
  ⟨(gaussianElimination_sound_and_singular Aid2 bW).1 xW geW_eq 0,
   (gaussianElimination_sound_and_singular Azero2 bW).2 ⟨0, fun j => rfl⟩⟩
